import Mathlib

/-!
Verification development for the bindscrape / bnd-winmd pipeline: a shallow
embedding of the extractor (`src/bindscrape/src/extract.rs`), the partition
configuration (`src/bindscrape/src/config.rs`) and the driver glue
(`src/bnd-winmd/src/lib.rs`), together with theorems checking the
natural-language specification against it.
-/

namespace Bindscrape

/-- Model of a filesystem path (`std::path::PathBuf`): an absoluteness flag
plus the list of normal components.  The code only uses component-wise
equality, `is_absolute`, `join` (on a relative argument) and `ends_with`,
all of which this representation captures. -/
structure FsPath where
  absolute : Bool
  components : List String
deriving DecidableEq, Repr

/-- Model of `Path::join` for the case exercised by the code: the argument
is only joined when it is relative, so joining appends its components. -/
def FsPath.join (base : FsPath) (p : FsPath) : FsPath :=
  ⟨base.absolute, base.components ++ p.components⟩

/-- Model of `Path::ends_with`: a relative needle matches when its
components are a suffix of the haystack components; an absolute needle
matches only the whole absolute path (its root component anchors it). -/
def FsPath.endsWith (file : FsPath) (tf : FsPath) : Bool :=
  if tf.absolute then decide (file = tf)
  else decide (tf.components <:+ file.components)

/-- Calling conventions of the intermediate model (`CallConv` in the model
module; constructors as used by `extract.rs`). -/
inductive CallConv where
  | cdecl
  | stdcall
  | fastcall
deriving DecidableEq, Repr

/-- The C type algebra `CType` of the intermediate model (spec section 3;
constructed by `map_clang_type` in `extract.rs`). -/
inductive CType where
  | void
  | bool
  | i8
  | u8
  | i16
  | u16
  | i32
  | u32
  | i64
  | u64
  | f32
  | f64
  | usize
  | isize
  | named (name : String)
  | ptr (pointee : CType) (isConst : Bool)
  | array (element : CType) (len : Nat)
  | fnPtr (returnType : CType) (params : List CType) (callingConvention : CallConv)
deriving Repr

/-- Calling conventions as reported by the C front-end
(`clang::CallingConvention`).  Only the three conventions the code maps are
distinguished; every other front-end convention is modelled by `other`
(the code collapses them all to `Cdecl`). -/
inductive ClangCC where
  | cdecl
  | stdcall
  | fastcall
  | other (tag : String)
deriving DecidableEq, Repr

/-- Model of `map_calling_convention` (`extract.rs` lines 436-444). -/
def mapCallingConvention : ClangCC → CallConv
  | .cdecl => .cdecl
  | .stdcall => .stdcall
  | .fastcall => .fastcall
  | .other _ => .cdecl

/-- Model of a front-end type (`clang::Type`) as consumed by
`map_clang_type`: one constructor per `TypeKind` the code inspects, whose
payload is exactly what the accessors called in that branch return.
Accessor failures (`get_pointee_type()` returning `None`, etc.) are
modelled by the dedicated `...No...` constructors.  For a `Typedef` kind,
`typedefWithDecl name canonical` models `get_declaration()` returning a
declaration whose `get_name().unwrap_or_default()` is `name` (possibly
empty) and whose `get_canonical_type()` is `canonical`; `typedefNoDecl`
models an absent declaration.  For `Record`/`Enum`, the payload models
`get_declaration()` (`none` = no declaration) and the declaration's
`get_name()`.  For `FunctionPrototype`, `args` models
`get_argument_types().unwrap_or_default()` and `cc` models
`get_calling_convention()`.  `unsupported kind` models every other
`TypeKind`. -/
inductive ClangType where
  | void
  | boolKind
  | charS
  | sChar
  | charU
  | uChar
  | short
  | uShort
  | int
  | uInt
  | long
  | uLong
  | longLong
  | uLongLong
  | float
  | double
  | pointer (pointeeConst : Bool) (pointee : ClangType)
  | pointerNoPointee
  | constantArray (element : ClangType) (size : Option Nat)
  | constantArrayNoElement
  | incompleteArray (element : ClangType)
  | incompleteArrayNoElement
  | elaborated (inner : ClangType)
  | elaboratedNoInner
  | typedefWithDecl (name : String) (canonical : ClangType)
  | typedefNoDecl (canonical : ClangType)
  | record (decl : Option (Option String))
  | enum (decl : Option (Option String))
  | functionProto (ret : ClangType) (args : List ClangType) (cc : Option ClangCC)
  | functionProtoNoRet
  | functionNoProto
  | unsupported (kind : String)
deriving Repr

mutual

/-- Model of `map_clang_type` (`extract.rs` lines 291-430).  The well-known
typedef table mirrors the `match name.as_str()` at lines 356-368 as an
if-chain; `size.getD 0` mirrors `get_size().unwrap_or(0)`. -/
def mapClangType : ClangType → Except String CType
  | .void => .ok .void
  | .boolKind => .ok .bool
  | .charS => .ok .i8
  | .sChar => .ok .i8
  | .charU => .ok .u8
  | .uChar => .ok .u8
  | .short => .ok .i16
  | .uShort => .ok .u16
  | .int => .ok .i32
  | .uInt => .ok .u32
  | .long => .ok .i32
  | .uLong => .ok .u32
  | .longLong => .ok .i64
  | .uLongLong => .ok .u64
  | .float => .ok .f32
  | .double => .ok .f64
  | .pointer pointeeConst pointee =>
      match mapClangType pointee with
      | .ok inner => .ok (.ptr inner pointeeConst)
      | .error e => .error e
  | .pointerNoPointee => .error "pointer has no pointee type"
  | .constantArray element size =>
      match mapClangType element with
      | .ok inner => .ok (.array inner (size.getD 0))
      | .error e => .error e
  | .constantArrayNoElement => .error "array has no element type"
  | .incompleteArray element =>
      match mapClangType element with
      | .ok inner => .ok (.ptr inner false)
      | .error e => .error e
  | .incompleteArrayNoElement => .error "incomplete array has no element type"
  | .elaborated inner => mapClangType inner
  | .elaboratedNoInner => .error "elaborated type has no inner type"
  | .typedefWithDecl name canonical =>
      if name = "" then mapClangType canonical
      else if name = "int8_t" ∨ name = "__int8" then .ok .i8
      else if name = "uint8_t" then .ok .u8
      else if name = "int16_t" ∨ name = "__int16" then .ok .i16
      else if name = "uint16_t" then .ok .u16
      else if name = "int32_t" ∨ name = "__int32" then .ok .i32
      else if name = "uint32_t" then .ok .u32
      else if name = "int64_t" ∨ name = "__int64" then .ok .i64
      else if name = "uint64_t" then .ok .u64
      else if name = "size_t" ∨ name = "uintptr_t" then .ok .usize
      else if name = "ssize_t" ∨ name = "intptr_t" ∨ name = "ptrdiff_t" then .ok .isize
      else .ok (.named name)
  | .typedefNoDecl canonical => mapClangType canonical
  | .record decl =>
      match decl with
      | some (some name) => .ok (.named name)
      | _ => .error "anonymous record type without name"
  | .enum decl =>
      match decl with
      | some (some name) => .ok (.named name)
      | _ => .error "anonymous enum type without name"
  | .functionProto ret args cc =>
      match mapClangType ret with
      | .error e => .error e
      | .ok retC =>
          match mapClangTypeList args with
          | .error e => .error e
          | .ok params =>
              .ok (.fnPtr retC params ((cc.map mapCallingConvention).getD .cdecl))
  | .functionProtoNoRet => .error "function prototype has no return type"
  | .functionNoProto => .ok (.fnPtr .void [] .cdecl)
  | .unsupported kind => .error ("unsupported clang TypeKind: " ++ kind)

/-- Model of the parameter-mapping loop inside the `FunctionPrototype`
branch of `map_clang_type` (`extract.rs` lines 402-405): each argument
type is mapped in order and the first failure propagates. -/
def mapClangTypeList : List ClangType → Except String (List CType)
  | [] => .ok []
  | t :: ts =>
      match mapClangType t with
      | .error e => .error e
      | .ok c =>
          match mapClangTypeList ts with
          | .error e => .error e
          | .ok cs => .ok (c :: cs)

end

/-- A field of an extracted struct (`FieldDef` in the model module; fields
as constructed by `extract_struct`). -/
structure FieldDef where
  name : String
  ty : CType
  bitfieldWidth : Option Nat
  bitfieldOffset : Option Nat
deriving Repr

/-- An extracted struct (`StructDef` in the model module). -/
structure StructDef where
  name : String
  size : Nat
  align : Nat
  fields : List FieldDef
deriving Repr

/-- An extracted enum variant (`EnumVariant` in the model module): the
front-end reports both a signed (`i64`, modelled as `Int`) and an unsigned
(`u64`, modelled as `Nat`) value. -/
structure EnumVariant where
  name : String
  signedValue : Int
  unsignedValue : Nat
deriving DecidableEq, Repr

/-- An extracted enum (`EnumDef` in the model module). -/
structure EnumDef where
  name : String
  underlyingType : CType
  variants : List EnumVariant
deriving Repr

/-- An extracted function parameter (`ParamDef` in the model module). -/
structure ParamDef where
  name : String
  ty : CType
deriving Repr

/-- An extracted function (`FunctionDef` in the model module). -/
structure FunctionDef where
  name : String
  returnType : CType
  params : List ParamDef
  callingConvention : CallConv
deriving Repr

/-- An extracted typedef (`TypedefDef` in the model module). -/
structure TypedefDef where
  name : String
  underlyingType : CType
deriving Repr

/-- An extracted constant value (`ConstantValue` in the model module).
Signed carries an `i64` (modelled as `Int`), unsigned a `u64` (modelled as
`Nat`); a float payload (`f64`) is carried opaquely as its bit pattern,
since the code only moves it. -/
inductive ConstantValue where
  | signed (v : Int)
  | unsigned (v : Nat)
  | float (bits : Nat)
deriving DecidableEq, Repr

/-- An extracted `#define` constant (`ConstantDef` in the model module). -/
structure ConstantDef where
  name : String
  value : ConstantValue
deriving DecidableEq, Repr

/-- An extracted partition (`Partition` in the model module, spec section 3).
The Rust field `namespace` is spelled `ns` because `namespace` is a Lean
keyword. -/
structure Partition where
  ns : String
  library : String
  structs : List StructDef
  enums : List EnumDef
  functions : List FunctionDef
  typedefs : List TypedefDef
  constants : List ConstantDef
deriving Repr

/-- A child entity of a struct declaration as consumed by `extract_struct`:
either a `FieldDecl` (with the results of `get_name`, `get_type`,
`is_bit_field`, `get_bit_field_width`, `get_offset_of_field`) or a child of
another kind, which the loop skips. -/
inductive StructChild where
  | field (name : Option String) (ty : Option ClangType) (isBitField : Bool)
      (bitFieldWidth : Option Nat) (offsetOfField : Option Nat)
  | otherKind (k : String)
deriving Repr

/-- The result of `get_type()` on a struct entity: the reported
`get_sizeof()` and `get_alignof()` (each may fail). -/
structure StructTypeInfo where
  sizeofResult : Option Nat
  alignofResult : Option Nat
deriving Repr

/-- A struct declaration as handed to `extract_struct` (a `sonar`
`Declaration`: a `name` plus the entity accessors the code calls). -/
structure StructDeclE where
  name : String
  ty : Option StructTypeInfo
  children : List StructChild
deriving Repr

/-- A child entity of an enum declaration as consumed by `extract_enum`:
either an `EnumConstantDecl` (with the results of `get_name` and
`get_enum_constant_value`) or a child of another kind, which the loop
skips. -/
inductive EnumChild where
  | enumConstant (name : Option String) (value : Option (Int × Nat))
  | otherKind (k : String)
deriving DecidableEq, Repr

/-- An enum declaration as handed to `extract_enum`: its `name`, the result
of `get_enum_underlying_type()` and its children. -/
structure EnumDeclE where
  name : String
  underlying : Option ClangType
  children : List EnumChild
deriving Repr

/-- The function type (`entity.get_type()`) as consumed by
`extract_function`: the results of `get_result_type()`,
`get_calling_convention()` and `get_argument_types()`. -/
structure FnTypeE where
  resultType : Option ClangType
  callingConvention : Option ClangCC
  argTypes : Option (List ClangType)
deriving Repr

/-- A function declaration as handed to `extract_function`: its `name`,
`get_type()` and `get_arguments()` (each argument entity contributing its
`get_name()`). -/
structure FunctionDeclE where
  name : String
  fnType : Option FnTypeE
  args : Option (List (Option String))
deriving Repr

/-- A typedef declaration as handed to `extract_typedef`: its `name` and
the result of `get_typedef_underlying_type()`. -/
structure TypedefDeclE where
  name : String
  underlying : Option ClangType
deriving Repr

/-- The value of a `#define` as reported by `sonar::find_definitions`
(`DefinitionValue`): an integer with a negation flag and a `u64` magnitude
(modelled as `Nat`), or a real (`f64`, carried opaquely as its bit
pattern). -/
inductive DefinitionValue where
  | integer (negated : Bool) (val : Nat)
  | real (bits : Nat)
deriving DecidableEq, Repr

/-- A `#define` as handed to the constants loop of `extract_partition`. -/
structure DefineE where
  name : String
  value : DefinitionValue
deriving DecidableEq, Repr

/-- A declaration together with its source location data: the result of
`entity.get_location()` (outer `Option`) and, when present, of
`get_file_location().file` (inner `Option`) followed by `get_path()`. -/
structure Located (α : Type) where
  loc : Option (Option FsPath)
  decl : α
deriving Repr

/-- Model of the field loop of `extract_struct` (`extract.rs` lines
159-187): non-`FieldDecl` children are skipped; a field with no type or an
unmappable type aborts the whole struct. -/
def extractFields : List StructChild → Except String (List FieldDef)
  | [] => .ok []
  | .otherKind _ :: rest => extractFields rest
  | .field name ty isBitField width offset :: rest =>
      match ty with
      | none => .error "field has no type"
      | some fieldType =>
          match mapClangType fieldType with
          | .error e =>
              .error ("unsupported type for field " ++ name.getD "" ++ ": " ++ e)
          | .ok ctype =>
              match extractFields rest with
              | .error m => .error m
              | .ok tail =>
                  .ok (⟨name.getD "", ctype,
                    if isBitField then width else none,
                    if isBitField then offset else none⟩ :: tail)

/-- Model of `extract_struct` (`extract.rs` lines 154-195). -/
def extractStruct (decl : StructDeclE) : Except String StructDef :=
  match decl.ty with
  | none => .error "struct has no type"
  | some ty =>
      match extractFields decl.children with
      | .error m => .error m
      | .ok fields =>
          .ok ⟨decl.name, ty.sizeofResult.getD 0, ty.alignofResult.getD 0, fields⟩

/-- Model of the variant loop of `extract_enum` (`extract.rs` lines
208-220): non-`EnumConstantDecl` children are skipped; an unreported
constant value defaults to `(0, 0)`. -/
def extractEnumVariants : List EnumChild → List EnumVariant
  | [] => []
  | .enumConstant name value :: rest =>
      let v := value.getD (0, 0)
      ⟨name.getD "", v.1, v.2⟩ :: extractEnumVariants rest
  | .otherKind _ :: rest => extractEnumVariants rest

/-- Model of `extract_enum` (`extract.rs` lines 201-227): a missing
underlying type is an error; an underlying type that fails to map falls
back to `I32`. -/
def extractEnum (decl : EnumDeclE) : Except String EnumDef :=
  match decl.underlying with
  | none => .error "enum has no underlying type"
  | some underlying =>
      let underlyingCType := match mapClangType underlying with
        | .ok t => t
        | .error _ => CType.i32
      .ok ⟨decl.name, underlyingCType, extractEnumVariants decl.children⟩

/-- Model of the parameter loop of `extract_function` (`extract.rs` lines
249-260): `i` is the running `enumerate` index; a missing name synthesizes
`paramN`; a missing or unmappable argument type becomes `Void`. -/
def buildParams (i : Nat) (args : List (Option String)) (argTypes : List ClangType) :
    List ParamDef :=
  match args with
  | [] => []
  | nameOpt :: rest =>
      let name := nameOpt.getD ("param" ++ toString i)
      let ty := if h : i < argTypes.length then
          match mapClangType (argTypes.get ⟨i, h⟩) with
          | .ok t => t
          | .error _ => CType.void
        else CType.void
      ⟨name, ty⟩ :: buildParams (i + 1) rest argTypes

/-- Model of `extract_function` (`extract.rs` lines 233-268): a missing
function type or result type is an error; an unmappable return type becomes
`Void`; a missing calling convention becomes `Cdecl`. -/
def extractFunction (decl : FunctionDeclE) : Except String FunctionDef :=
  match decl.fnType with
  | none => .error "function has no type"
  | some fnType =>
      match fnType.resultType with
      | none => .error "function has no return type"
      | some retType =>
          let returnCType := match mapClangType retType with
            | .ok t => t
            | .error _ => CType.void
          let callingConvention :=
            (fnType.callingConvention.map mapCallingConvention).getD .cdecl
          .ok ⟨decl.name, returnCType,
            buildParams 0 (decl.args.getD []) (fnType.argTypes.getD []),
            callingConvention⟩

/-- Model of `extract_typedef` (`extract.rs` lines 274-285): a missing
underlying type is an error; an underlying type that fails to map falls
back to `Void`. -/
def extractTypedef (decl : TypedefDeclE) : Except String TypedefDef :=
  match decl.underlying with
  | none => .error "typedef has no underlying type"
  | some underlying =>
      let ctype := match mapClangType underlying with
        | .ok t => t
        | .error _ => CType.void
      .ok ⟨decl.name, ctype⟩

/-- Model of the `#define` value translation inside `extract_partition`
(`extract.rs` lines 110-121).  `u64AsI64` and `i64Neg` below spell out the
two's-complement semantics of `-(val as i64)` on `u64`/`i64`. -/
def u64AsI64 (val : Nat) : Int :=
  if val < 2 ^ 63 then (val : Int) else (val : Int) - 2 ^ 64

/-- Model of Rust (release-mode) `i64` negation: it wraps only at
`i64::MIN`, whose negation is itself. -/
def i64Neg (x : Int) : Int :=
  if x = -(2 ^ 63) then x else -x

/-- Model of the `DefinitionValue` match in `extract_partition`
(`extract.rs` lines 110-121). -/
def extractConstantValue : DefinitionValue → ConstantValue
  | .integer negated val =>
      if negated then .signed (i64Neg (u64AsI64 val))
      else if val ≤ 2 ^ 63 - 1 then .signed (val : Int)
      else .unsigned val
  | .real bits => .float bits

/-- Model of `PartitionConfig` (`src/bindscrape/src/config.rs`): the
fields the extractor reads.  The Rust field `namespace` is spelled `ns`
because `namespace` is a Lean keyword; `clang_args` is omitted (it is
passed verbatim to the out-of-scope front-end). -/
structure PartitionConfigE where
  ns : String
  library : String
  headers : List FsPath
  traverse : List FsPath
deriving Repr

/-- Model of `PartitionConfig::traverse_files` (`config.rs` lines 51-59):
the traverse list, falling back to `headers` when empty. -/
def PartitionConfigE.traverseFiles (p : PartitionConfigE) : List FsPath :=
  if p.traverse.isEmpty then p.headers else p.traverse

/-- Model of `should_emit_by_location` (`extract.rs` lines 454-475): the
declaration is in scope when its primary source location has a file whose
path equals a traverse entry resolved against the base directory, or is a
path-suffix match against the entry as written. -/
def shouldEmitByLocation (loc : Option (Option FsPath)) (traverseFiles : List FsPath)
    (baseDir : FsPath) : Bool :=
  match loc with
  | none => false
  | some none => false
  | some (some filePath) =>
      traverseFiles.any fun tf =>
        let absTf := if tf.absolute then tf else baseDir.join tf
        decide (filePath = absTf) || filePath.endsWith tf

/-- Model of `should_emit` (`extract.rs` lines 450-452). -/
def shouldEmit (loc : Option (Option FsPath)) (traverseFiles : List FsPath)
    (baseDir : FsPath) : Bool :=
  shouldEmitByLocation loc traverseFiles baseDir

/-- The top-level declarations of one parsed translation unit, as produced
by the out-of-scope front-end (`sonar::find_structs` and friends over
`tu.get_entity().get_children()`). -/
structure TranslationUnitDecls where
  structs : List (Located StructDeclE)
  enums : List (Located EnumDeclE)
  functions : List (Located FunctionDeclE)
  typedefs : List (Located TypedefDeclE)
  defines : List (Located DefineE)
deriving Repr

/-- Model of the four identical extraction loops of `extract_partition`
(`extract.rs` lines 44-102): out-of-scope declarations are skipped; an
extraction error is logged as a warning and the declaration is skipped;
successes are pushed in order. -/
def extractLoop {α β : Type} (extract : α → Except String β)
    (inScope : Located α → Bool) : List (Located α) → List β
  | [] => []
  | d :: rest =>
      if inScope d then
        match extract d.decl with
        | .ok b => b :: extractLoop extract inScope rest
        | .error _ => extractLoop extract inScope rest
      else extractLoop extract inScope rest

/-- Model of the `#define` loop of `extract_partition` (`extract.rs` lines
104-127): out-of-scope definitions are skipped; the rest always produce a
constant. -/
def extractConstantsLoop (inScope : Located DefineE → Bool) :
    List (Located DefineE) → List ConstantDef
  | [] => []
  | d :: rest =>
      if inScope d then
        ⟨d.decl.name, extractConstantValue d.decl.value⟩ :: extractConstantsLoop inScope rest
      else extractConstantsLoop inScope rest

/-- Model of `extract_partition` (`extract.rs` lines 16-148) downstream of
the front-end parse: the translation unit declarations are supplied as
input and filtered per `should_emit`.  (`namespace_overrides` is accepted
and ignored by the source, line 22.) -/
def extractPartition (partition : PartitionConfigE) (baseDir : FsPath)
    (tu : TranslationUnitDecls) : Partition :=
  let traverseFiles := partition.traverseFiles
  { ns := partition.ns
    library := partition.library
    structs := extractLoop extractStruct
      (fun d => shouldEmit d.loc traverseFiles baseDir) tu.structs
    enums := extractLoop extractEnum
      (fun d => shouldEmit d.loc traverseFiles baseDir) tu.enums
    functions := extractLoop extractFunction
      (fun d => shouldEmit d.loc traverseFiles baseDir) tu.functions
    typedefs := extractLoop extractTypedef
      (fun d => shouldEmit d.loc traverseFiles baseDir) tu.typedefs
    constants := extractConstantsLoop
      (fun d => shouldEmitByLocation d.loc traverseFiles baseDir) tu.defines }

/-- Modelled from the spec: the repository module defining `TypeRegistry`
(`model.rs`, with `register`, `contains` and `namespace_for`) is not under
`src/`; only its callers are.  Per spec section 3 the registry is a mapping
`name → namespace` populated with first-writer-wins registration, and per
section 4.3 / section 7 lookups fall back to a caller-supplied default
namespace.  It is modelled as the list of (name, namespace) entries in
registration order. -/
structure TypeRegistry where
  entries : List (String × String)
deriving DecidableEq, Repr

/-- Modelled from the spec: the empty registry (`TypeRegistry::default`). -/
def TypeRegistry.empty : TypeRegistry := ⟨[]⟩

/-- Modelled from the spec: the namespace registered for `name`, if any. -/
def TypeRegistry.findNs (r : TypeRegistry) (name : String) : Option String :=
  (r.entries.find? fun e => e.1 == name).map (·.2)

/-- Modelled from the spec: `TypeRegistry::contains`. -/
def TypeRegistry.contains (r : TypeRegistry) (name : String) : Bool :=
  (r.findNs name).isSome

/-- Modelled from the spec: `TypeRegistry::register` with first-writer-wins
(spec section 4.2: "unless it is already registered"). -/
def TypeRegistry.register (r : TypeRegistry) (name ns : String) : TypeRegistry :=
  if r.contains name then r else ⟨r.entries ++ [(name, ns)]⟩

/-- Modelled from the spec: `TypeRegistry::namespace_for`, the canonical
namespace of `name` with a caller-supplied default for unregistered names
(used by the deduplication pass with the partition's own namespace). -/
def TypeRegistry.namespaceFor (r : TypeRegistry) (name dflt : String) : String :=
  (r.findNs name).getD dflt

/-- Model of `build_type_registry` (`extract.rs` lines 477-504): scan the
partitions in order; for each struct, enum and typedef register its name
under the override namespace when configured, else under the partition's
namespace.  Overrides (`HashMap<String, String>`) are modelled as a
lookup function. -/
def buildTypeRegistry (partitions : List Partition)
    (overrides : String → Option String) : TypeRegistry :=
  partitions.foldl
    (fun registry partition =>
      let r1 := partition.structs.foldl
        (fun r s => r.register s.name ((overrides s.name).getD partition.ns)) registry
      let r2 := partition.enums.foldl
        (fun r e => r.register e.name ((overrides e.name).getD partition.ns)) r1
      partition.typedefs.foldl
        (fun r td => r.register td.name ((overrides td.name).getD partition.ns)) r2)
    TypeRegistry.empty

/-- Model of `seed_registry_from_winmd` (`src/bnd-winmd/src/lib.rs` lines
149-187) downstream of the external file read: `types` is the list of
(namespace, name) pairs enumerated by the metadata reader, processed in
order; the synthetic `<Module>` and `Apis` names, empty namespaces, and
namespaces outside the filter are skipped, and already-registered names
are never overwritten. -/
def seedRegistryFromWinmd (registry : TypeRegistry) (types : List (String × String))
    (nsFilter : String) : TypeRegistry :=
  types.foldl
    (fun r t =>
      if t.1 = "" ∨ t.2 = "<Module>" ∨ t.2 = "Apis" then r
      else if ¬ nsFilter.isPrefixOf t.1 then r
      else if r.contains t.2 then r
      else r.register t.2 t.1)
    registry

/-- Model of the registry-construction portion of `generate_from_config`
(`src/bnd-winmd/src/lib.rs` lines 111-122): the local registry is built
first, then each configured type import seeds it.  An import is modelled
as the (namespace, name) pairs its `.winmd` enumerates together with its
namespace filter. -/
def generateRegistry (partitions : List Partition) (overrides : String → Option String)
    (imports : List (List (String × String) × String)) : TypeRegistry :=
  imports.foldl (fun r ti => seedRegistryFromWinmd r ti.1 ti.2)
    (buildTypeRegistry partitions overrides)

/-- Model of the typedef-deduplication pass of `generate_from_config`
(`src/bnd-winmd/src/lib.rs` lines 131-136): each partition retains only the
typedefs whose canonical namespace is its own. -/
def dedupTypedefs (registry : TypeRegistry) (partitions : List Partition) :
    List Partition :=
  partitions.map fun partition =>
    { partition with
      typedefs := partition.typedefs.filter fun td =>
        registry.namespaceFor td.name partition.ns == partition.ns }

/-- A filesystem state: each path maps to the byte content of the file at
that path, if one exists.  Bytes are modelled as naturals. -/
def FileSystem : Type := FsPath → Option (List Nat)

/-- The outcome of one OS-level file write: it either completes, or fails
after `k` bytes have been written. -/
inductive WriteOutcome where
  | success
  | failsAfter (k : Nat)
deriving DecidableEq, Repr

/-- Model of `std::fs::write path bytes`: the file at `path` is created or
truncated and then written front to back, so a write that fails after `k`
bytes leaves the file holding the first `k` bytes of the new content. -/
def fsWrite (fs : FileSystem) (path : FsPath) (bytes : List Nat) :
    WriteOutcome → FileSystem
  | .success => fun p => if p = path then some bytes else fs p
  | .failsAfter k => fun p => if p = path then some (bytes.take k) else fs p

/-- Model of the output-writing step of `run` (`src/bnd-winmd/src/lib.rs`
lines 54-59): the generated bytes are written with a single
`std::fs::write` directly to the output path; no temporary file is created
and no rename is performed. -/
def runWriteOutput (fs : FileSystem) (outputPath : FsPath) (winmdBytes : List Nat)
    (outcome : WriteOutcome) : FileSystem :=
  fsWrite fs outputPath winmdBytes outcome

/-- Characterization helper: the variant, if any, an enum child contributes
(used to state order preservation of the variant loop). -/
def enumVariantOf : EnumChild → Option EnumVariant
  | .enumConstant nm v => some ⟨nm.getD "", (v.getD (0, 0)).1, (v.getD (0, 0)).2⟩
  | .otherKind _ => none

/-- Characterization helper: whether an enum child is an
`EnumConstantDecl`. -/
def isEnumConstantChild : EnumChild → Bool
  | .enumConstant _ _ => true
  | .otherKind _ => false

/-- Characterization helper: the parameter type `extract_function` assigns
for argument position `j` (mapped type, `Void` on failure or when the
position has no reported argument type). -/
def paramTypeAt (argTypes : List ClangType) (j : Nat) : CType :=
  match argTypes[j]? with
  | some t =>
      match mapClangType t with
      | .ok c => c
      | .error _ => CType.void
  | none => CType.void

/-- Characterization helper: whether a partition declares `name` as a
struct, enum or typedef (the three kinds `build_type_registry`
registers). -/
def Partition.declares (p : Partition) (name : String) : Bool :=
  p.structs.any (fun s => s.name == name) ||
    p.enums.any (fun e => e.name == name) ||
    p.typedefs.any (fun td => td.name == name)

/-- Characterization helper: the sequence of (name, namespace)
registration events `build_type_registry` performs, in order. -/
def registryEvents (overrides : String → Option String) :
    List Partition → List (String × String)
  | [] => []
  | p :: rest =>
      (p.structs.map fun s => (s.name, (overrides s.name).getD p.ns)) ++
        (p.enums.map fun e => (e.name, (overrides e.name).getD p.ns)) ++
        (p.typedefs.map fun td => (td.name, (overrides td.name).getD p.ns)) ++
        registryEvents overrides rest

/-- Characterization helper: apply a sequence of registration events to a
registry, in order. -/
def applyEvents (r : TypeRegistry) : List (String × String) → TypeRegistry
  | [] => r
  | e :: rest => applyEvents (r.register e.1 e.2) rest

theorem extractEnumVariants_eq_filterMap (l : List EnumChild) :
    extractEnumVariants l = l.filterMap enumVariantOf := by
  induction l with
  | nil => rfl
  | cons c rest ih =>
      cases c <;> simp [extractEnumVariants, enumVariantOf, List.filterMap_cons, ih]

theorem extractEnumVariants_length (l : List EnumChild) :
    (extractEnumVariants l).length = l.countP isEnumConstantChild := by
  induction l with
  | nil => rfl
  | cons c rest ih =>
      cases c <;> simp [extractEnumVariants, isEnumConstantChild, List.countP_cons, ih]

theorem extractEnum_ok (decl : EnumDeclE) (u : ClangType) (h : decl.underlying = some u) :
    extractEnum decl = .ok ⟨decl.name,
      (match mapClangType u with | .ok t => t | .error _ => CType.i32),
      extractEnumVariants decl.children⟩ := by
  simp only [extractEnum, h]

theorem buildParams_getElem (args : List (Option String)) (argTypes : List ClangType)
    (k i : Nat) :
    (buildParams k args argTypes)[i]? = (args[i]?).map fun nameOpt =>
      ⟨nameOpt.getD ("param" ++ toString (k + i)), paramTypeAt argTypes (k + i)⟩ := by
  induction args generalizing k i with
  | nil => simp [buildParams]
  | cons nameOpt rest ih =>
      cases i with
      | zero =>
          simp only [buildParams, List.getElem?_cons_zero, Option.map_some, Nat.add_zero]
          congr 1
          by_cases h : k < argTypes.length
          · simp only [dif_pos h, paramTypeAt, List.getElem?_eq_getElem h, List.get_eq_getElem]
          · simp only [dif_neg h, paramTypeAt,
              List.getElem?_eq_none (Nat.le_of_not_lt h)]
      | succ j =>
          simp only [buildParams, List.getElem?_cons_succ]
          rw [ih (k + 1) j]
          have harith : k + 1 + j = k + (j + 1) := by omega
          rw [harith]

theorem buildParams_length (args : List (Option String)) (argTypes : List ClangType)
    (k : Nat) : (buildParams k args argTypes).length = args.length := by
  induction args generalizing k with
  | nil => rfl
  | cons nameOpt rest ih => simp [buildParams, ih]

theorem extractFunction_ok (decl : FunctionDeclE) (ft : FnTypeE) (rt : ClangType)
    (h1 : decl.fnType = some ft) (h2 : ft.resultType = some rt) :
    extractFunction decl = .ok ⟨decl.name,
      (match mapClangType rt with | .ok t => t | .error _ => CType.void),
      buildParams 0 (decl.args.getD []) (ft.argTypes.getD []),
      (ft.callingConvention.map mapCallingConvention).getD .cdecl⟩ := by
  simp only [extractFunction, h1, h2]

theorem extractTypedef_ok (name : String) (u : ClangType) :
    extractTypedef ⟨name, some u⟩ = .ok ⟨name,
      (match mapClangType u with | .ok t => t | .error _ => CType.void)⟩ := by
  simp only [extractTypedef]

theorem extractFields_error_of_failing_field (children : List StructChild)
    (hc : ∃ c ∈ children, ∃ nm t bf w o, c = .field nm (some t) bf w o ∧
      ∃ msg, mapClangType t = .error msg) :
    ∃ m, extractFields children = .error m := by
  induction children with
  | nil => simp at hc
  | cons c rest ih =>
      obtain ⟨c0, hmem, nm, t, bf, w, o, hform, msg, hmap⟩ := hc
      rcases List.mem_cons.mp hmem with hhead | htail
      · subst hform
        rw [← hhead]
        exact ⟨"unsupported type for field " ++ nm.getD "" ++ ": " ++ msg,
          by simp [extractFields, hmap]⟩
      · obtain ⟨m, hm⟩ := ih ⟨c0, htail, nm, t, bf, w, o, hform, msg, hmap⟩
        cases c with
        | otherKind k => exact ⟨m, by simpa [extractFields] using hm⟩
        | field fnm fty fbf fw fo =>
            cases fty with
            | none => exact ⟨"field has no type", by simp [extractFields]⟩
            | some t0 =>
                cases hmap0 : mapClangType t0 with
                | error e =>
                    exact ⟨"unsupported type for field " ++ fnm.getD "" ++ ": " ++ e,
                      by simp [extractFields, hmap0]⟩
                | ok ct =>
                    exact ⟨m, by simp [extractFields, hmap0, hm]⟩

theorem extractStruct_error_of_failing_field (decl : StructDeclE)
    (hc : ∃ c ∈ decl.children, ∃ nm t bf w o, c = .field nm (some t) bf w o ∧
      ∃ msg, mapClangType t = .error msg) :
    ∃ m, extractStruct decl = .error m := by
  obtain ⟨m, hm⟩ := extractFields_error_of_failing_field decl.children hc
  cases hty : decl.ty with
  | none => exact ⟨"struct has no type", by simp [extractStruct, hty]⟩
  | some ti => exact ⟨m, by simp [extractStruct, hty, hm]⟩

theorem extractLoop_skip {α β : Type} (extract : α → Except String β)
    (inScope : Located α → Bool) (pre post : List (Located α)) (d : Located α)
    (msg : String) (hd : extract d.decl = .error msg) :
    extractLoop extract inScope (pre ++ d :: post) =
      extractLoop extract inScope (pre ++ post) := by
  induction pre with
  | nil => simp [extractLoop, hd]
  | cons p rest ih =>
      by_cases hp : inScope p
      · cases hex : extract p.decl with
        | ok b => simp [extractLoop, hp, hex, ih]
        | error m => simp [extractLoop, hp, hex, ih]
      · simp [extractLoop, hp, ih]

/-- C9: the C-type mapper maps every well-known typedef name to its
primitive exactly per the table — `int8_t`/`__int8` to `I8`, `uint8_t` to
`U8`, `int16_t`/`__int16` to `I16`, `uint16_t` to `U16`,
`int32_t`/`__int32` to `I32`, `uint32_t` to `U32`, `int64_t`/`__int64` to
`I64`, `uint64_t` to `U64`, `size_t`/`uintptr_t` to `USize`,
`ssize_t`/`intptr_t`/`ptrdiff_t` to `ISize` — and maps every other
non-empty typedef name `N` to `Named N`. -/
theorem c9_well_known_typedef_table (canonical : ClangType) :
    (mapClangType (.typedefWithDecl "int8_t" canonical) = .ok .i8 ∧
     mapClangType (.typedefWithDecl "__int8" canonical) = .ok .i8 ∧
     mapClangType (.typedefWithDecl "uint8_t" canonical) = .ok .u8 ∧
     mapClangType (.typedefWithDecl "int16_t" canonical) = .ok .i16 ∧
     mapClangType (.typedefWithDecl "__int16" canonical) = .ok .i16 ∧
     mapClangType (.typedefWithDecl "uint16_t" canonical) = .ok .u16 ∧
     mapClangType (.typedefWithDecl "int32_t" canonical) = .ok .i32 ∧
     mapClangType (.typedefWithDecl "__int32" canonical) = .ok .i32 ∧
     mapClangType (.typedefWithDecl "uint32_t" canonical) = .ok .u32 ∧
     mapClangType (.typedefWithDecl "int64_t" canonical) = .ok .i64 ∧
     mapClangType (.typedefWithDecl "__int64" canonical) = .ok .i64 ∧
     mapClangType (.typedefWithDecl "uint64_t" canonical) = .ok .u64 ∧
     mapClangType (.typedefWithDecl "size_t" canonical) = .ok .usize ∧
     mapClangType (.typedefWithDecl "uintptr_t" canonical) = .ok .usize ∧
     mapClangType (.typedefWithDecl "ssize_t" canonical) = .ok .isize ∧
     mapClangType (.typedefWithDecl "intptr_t" canonical) = .ok .isize ∧
     mapClangType (.typedefWithDecl "ptrdiff_t" canonical) = .ok .isize) ∧
    ∀ name : String, name ≠ "" →
      name ∉ (["int8_t", "__int8", "uint8_t", "int16_t", "__int16", "uint16_t",
        "int32_t", "__int32", "uint32_t", "int64_t", "__int64", "uint64_t",
        "size_t", "uintptr_t", "ssize_t", "intptr_t", "ptrdiff_t"] : List String) →
      mapClangType (.typedefWithDecl name canonical) = .ok (.named name) := by
  refine ⟨⟨rfl, rfl, rfl, rfl, rfl, rfl, rfl, rfl, rfl, rfl, rfl, rfl, rfl, rfl,
    rfl, rfl, rfl⟩, ?_⟩
  intro name hne hmem
  simp only [List.mem_cons, List.not_mem_nil, or_false] at hmem
  push_neg at hmem
  obtain ⟨h1, h2, h3, h4, h5, h6, h7, h8, h9, h10, h11, h12, h13, h14, h15, h16, h17⟩ :=
    hmem
  simp [mapClangType, hne, h1, h2, h3, h4, h5, h6, h7, h8, h9, h10, h11, h12, h13, h14,
    h15, h16, h17]

/-- C9 witness: instantiation of `c9_well_known_typedef_table` at a
concrete non-table name. -/
theorem c9_well_known_typedef_table_witness :
    mapClangType (.typedefWithDecl "EVP_MD" ClangType.void) = .ok (.named "EVP_MD") :=
  (c9_well_known_typedef_table ClangType.void).2 "EVP_MD" (by decide) (by decide)

/-- C5 counterexample: at magnitude `n = 2 ^ 63 + 1` with the negation flag
set, the code produces `Signed (2 ^ 63 - 1)` (two's-complement wrap of
`-(val as i64)`), not the mathematically exact `Signed (-(2 ^ 63 + 1))`
the claim requires. -/
theorem c5_counterexample :
    extractConstantValue (.integer true (2 ^ 63 + 1)) =
      .signed (2 ^ 63 - 1) ∧ (2 ^ 63 - 1 : Int) ≠ -(2 ^ 63 + 1) :=
  ⟨rfl, by decide⟩

/-- C5 (amended): for an integer `#define` of magnitude `n < 2 ^ 64`, the
negated case yields `Signed m` where `m` is the unique value with
`-(2 ^ 63) ≤ m < 2 ^ 63` and `m ≡ -n (mod 2 ^ 64)` (so exactly `-n`
whenever `n ≤ 2 ^ 63`); without the negation flag, magnitudes fitting
`i64` yield `Signed n` and larger ones yield `Unsigned n`. -/
theorem c5_define_constant_sign_handling (n : Nat) (h : n < 2 ^ 64) :
    (∃ m : Int, extractConstantValue (.integer true n) = .signed m ∧
      -(2 ^ 63) ≤ m ∧ m < 2 ^ 63 ∧ (m + n) % 2 ^ 64 = 0) ∧
    (n ≤ 2 ^ 63 → extractConstantValue (.integer true n) = .signed (-(n : Int))) ∧
    (n ≤ 2 ^ 63 - 1 → extractConstantValue (.integer false n) = .signed (n : Int)) ∧
    (2 ^ 63 - 1 < n → extractConstantValue (.integer false n) = .unsigned n) := by
  have hredT : extractConstantValue (.integer true n) =
      .signed (i64Neg (u64AsI64 n)) := rfl
  refine ⟨?_, ?_, ?_, ?_⟩
  · rw [hredT]
    unfold u64AsI64 i64Neg
    by_cases h1 : n < 2 ^ 63
    · rw [if_pos h1, if_neg (by omega : ¬ ((n : Int) = -(2 ^ 63)))]
      exact ⟨-(n : Int), rfl, by omega, by omega, by omega⟩
    · rw [if_neg h1]
      by_cases h2 : ((n : Int) - 2 ^ 64) = -(2 ^ 63)
      · rw [if_pos h2]
        exact ⟨(n : Int) - 2 ^ 64, rfl, by omega, by omega, by omega⟩
      · rw [if_neg h2]
        exact ⟨-((n : Int) - 2 ^ 64), rfl, by omega, by omega, by omega⟩
  · intro h2
    rw [hredT]
    unfold u64AsI64 i64Neg
    by_cases h1 : n < 2 ^ 63
    · rw [if_pos h1, if_neg (by omega : ¬ ((n : Int) = -(2 ^ 63)))]
    · have hn : n = 2 ^ 63 := by omega
      subst hn
      norm_num
  · intro h2
    have : extractConstantValue (.integer false n) =
        if n ≤ 2 ^ 63 - 1 then .signed (n : Int) else .unsigned n := rfl
    rw [this, if_pos h2]
  · intro h2
    have : extractConstantValue (.integer false n) =
        if n ≤ 2 ^ 63 - 1 then .signed (n : Int) else .unsigned n := rfl
    rw [this, if_neg (by omega)]

/-- C5 witness: instantiation of `c5_define_constant_sign_handling` at
`n = 5`. -/
theorem c5_define_constant_sign_handling_witness :
    extractConstantValue (.integer true 5) = .signed (-(5 : Nat) : Int) :=
  (c5_define_constant_sign_handling 5 (by decide)).2.1 (by decide)

/-- C8 counterexample: an enum declaration whose underlying type is absent
is not produced with an `I32` fallback as the claim states — `extract_enum`
returns an error and the enum is skipped.  (The `I32` fallback in the code
applies when the underlying type is present but fails to map.) -/
theorem c8_counterexample :
    extractEnum ⟨"E", none, []⟩ = .error "enum has no underlying type" := rfl

/-- C8 (amended): for every enum declaration whose underlying type is
present, extraction records the underlying integer type, falling back to
`I32` if the underlying type cannot be mapped, and records each
`EnumConstantDecl` child as a variant with its reported signed and
unsigned values in declaration order; the enum itself is produced (not
skipped) in this case.  When the underlying type is absent the enum is
skipped with an error instead. -/
theorem c8_enum_extraction (decl : EnumDeclE) :
    (∀ u, decl.underlying = some u →
      ∃ e : EnumDef, extractEnum decl = .ok e ∧
        e.name = decl.name ∧
        ((∃ t, mapClangType u = .ok t ∧ e.underlyingType = t) ∨
          ((∃ msg, mapClangType u = .error msg) ∧ e.underlyingType = .i32)) ∧
        e.variants = decl.children.filterMap enumVariantOf ∧
        e.variants.length = decl.children.countP isEnumConstantChild) ∧
    (decl.underlying = none → extractEnum decl = .error "enum has no underlying type") := by
  constructor
  · intro u hu
    refine ⟨_, extractEnum_ok decl u hu, rfl, ?_, ?_, ?_⟩
    · cases hm : mapClangType u with
      | ok t => exact Or.inl ⟨t, rfl, by simp [hm]⟩
      | error msg => exact Or.inr ⟨⟨msg, rfl⟩, by simp [hm]⟩
    · exact extractEnumVariants_eq_filterMap decl.children
    · exact extractEnumVariants_length decl.children
  · intro hu
    simp [extractEnum, hu]

/-- C8 witness: instantiation of `c8_enum_extraction` at a concrete enum
with one variant. -/
theorem c8_enum_extraction_witness :
    ∃ e : EnumDef,
      extractEnum ⟨"Color", some .uInt, [.enumConstant (some "RED") (some (0, 0))]⟩ =
        .ok e ∧
      e.name = "Color" ∧
      ((∃ t, mapClangType .uInt = .ok t ∧ e.underlyingType = t) ∨
        ((∃ msg, mapClangType .uInt = .error msg) ∧ e.underlyingType = .i32)) ∧
      e.variants = List.filterMap enumVariantOf
        [.enumConstant (some "RED") (some (0, 0))] ∧
      e.variants.length = List.countP isEnumConstantChild
        [.enumConstant (some "RED") (some (0, 0))] :=
  (c8_enum_extraction ⟨"Color", some .uInt,
    [.enumConstant (some "RED") (some (0, 0))]⟩).1 .uInt rfl

/-- C10: an enum variant whose numeric constant value the front-end does
not report is not skipped: it is recorded with both its signed and its
unsigned value equal to 0 (and the variant count matches the number of
`EnumConstantDecl` children, so nothing is dropped). -/
theorem c10_unreported_enum_value_defaults_to_zero (decl : EnumDeclE) (u : ClangType)
    (hu : decl.underlying = some u) (nm : Option String)
    (hmem : EnumChild.enumConstant nm none ∈ decl.children) :
    ∃ e : EnumDef, extractEnum decl = .ok e ∧
      EnumVariant.mk (nm.getD "") 0 0 ∈ e.variants ∧
      e.variants.length = decl.children.countP isEnumConstantChild := by
  refine ⟨_, extractEnum_ok decl u hu, ?_, extractEnumVariants_length decl.children⟩
  rw [extractEnumVariants_eq_filterMap]
  exact List.mem_filterMap.mpr ⟨.enumConstant nm none, hmem, rfl⟩

/-- C10 witness: instantiation of
`c10_unreported_enum_value_defaults_to_zero` at a concrete enum whose only
variant has no reported value. -/
theorem c10_unreported_enum_value_defaults_to_zero_witness :
    ∃ e : EnumDef,
      extractEnum ⟨"E", some .int, [.enumConstant (some "A") none]⟩ = .ok e ∧
      EnumVariant.mk "A" 0 0 ∈ e.variants ∧
      e.variants.length = List.countP isEnumConstantChild
        [.enumConstant (some "A") none] :=
  c10_unreported_enum_value_defaults_to_zero
    ⟨"E", some .int, [.enumConstant (some "A") none]⟩ .int rfl (some "A") (by decide)

/-- C3 counterexample: a typedef whose underlying type the mapper cannot
translate is NOT skipped, contrary to the claim — the mapper failure is
swallowed and the typedef is extracted with `Void` as its underlying
type. -/
theorem c3_counterexample :
    mapClangType (.unsupported "Vector") = .error "unsupported clang TypeKind: Vector" ∧
    extractTypedef ⟨"T", some (.unsupported "Vector")⟩ = .ok ⟨"T", .void⟩ :=
  ⟨rfl, rfl⟩

/-- C3 (amended): a type-mapping failure is always non-fatal for the
partition, but only a field failure skips its enclosing declaration: a
struct with a field whose type cannot be mapped fails extraction (and the
partition loop drops exactly that struct, leaving the sibling declarations
unchanged), while a typedef whose underlying type cannot be mapped is
still extracted with `Void`, and a function whose return or parameter
type cannot be mapped is still extracted with `Void` substituted at the
failing position. -/
theorem c3_unsupported_type_handling :
    (∀ (inScope : Located StructDeclE → Bool) (pre post : List (Located StructDeclE))
        (d : Located StructDeclE) (msg : String),
      extractStruct d.decl = .error msg →
        extractLoop extractStruct inScope (pre ++ d :: post) =
          extractLoop extractStruct inScope (pre ++ post)) ∧
    (∀ decl : StructDeclE,
      (∃ c ∈ decl.children, ∃ nm t bf w o, c = .field nm (some t) bf w o ∧
        ∃ msg, mapClangType t = .error msg) →
      ∃ m, extractStruct decl = .error m) ∧
    (∀ (name : String) (u : ClangType) (msg : String), mapClangType u = .error msg →
      extractTypedef ⟨name, some u⟩ = .ok ⟨name, .void⟩) ∧
    (∀ (decl : FunctionDeclE) (ft : FnTypeE) (rt : ClangType),
      decl.fnType = some ft → ft.resultType = some rt →
      ∃ f : FunctionDef, extractFunction decl = .ok f ∧
        ((∃ msg, mapClangType rt = .error msg) → f.returnType = .void) ∧
        ∀ (i : Nat) (nmOpt : Option String) (t : ClangType),
          (decl.args.getD [])[i]? = some nmOpt →
          (ft.argTypes.getD [])[i]? = some t →
          (∃ msg, mapClangType t = .error msg) →
          f.params[i]? = some ⟨nmOpt.getD ("param" ++ toString i), CType.void⟩) := by
  refine ⟨extractLoop_skip extractStruct, extractStruct_error_of_failing_field, ?_, ?_⟩
  · intro name u msg hmap
    rw [extractTypedef_ok name u, hmap]
  · intro decl ft rt h1 h2
    refine ⟨_, extractFunction_ok decl ft rt h1 h2, ?_, ?_⟩
    · rintro ⟨msg, hmap⟩
      simp [hmap]
    · intro i nmOpt t hname htype hfail
      obtain ⟨msg, hmap⟩ := hfail
      simp only [buildParams_getElem, hname, Option.map_some, Nat.zero_add]
      have hty : paramTypeAt (ft.argTypes.getD []) i = CType.void := by
        simp [paramTypeAt, htype, hmap]
      rw [hty]
      rfl

/-- C3 witness: instantiation of `c3_unsupported_type_handling` — a struct
with an unmappable field type is dropped from the partition loop while its
sibling survives. -/
theorem c3_unsupported_type_handling_witness :
    extractLoop extractStruct (fun _ => true)
      ([] ++ Located.mk (some (some ⟨true, ["h"]⟩))
          (StructDeclE.mk "Bad" (some ⟨some 4, some 4⟩)
            [.field (some "f") (some (.unsupported "X")) false none none]) ::
        [Located.mk (some (some ⟨true, ["h"]⟩))
          (StructDeclE.mk "Good" (some ⟨some 0, some 0⟩) [])]) =
      extractLoop extractStruct (fun _ => true)
        ([] ++ [Located.mk (some (some ⟨true, ["h"]⟩))
          (StructDeclE.mk "Good" (some ⟨some 0, some 0⟩) [])]) :=
  (c3_unsupported_type_handling).1 (fun _ => true) []
    [Located.mk (some (some ⟨true, ["h"]⟩))
      (StructDeclE.mk "Good" (some ⟨some 0, some 0⟩) [])]
    (Located.mk (some (some ⟨true, ["h"]⟩))
      (StructDeclE.mk "Bad" (some ⟨some 4, some 4⟩)
        [.field (some "f") (some (.unsupported "X")) false none none]))
    "unsupported type for field f: unsupported clang TypeKind: X" rfl

/-- C4 counterexample: `run` writes the output with a single direct
`std::fs::write` (no temporary sibling, no rename), so a write failing
after one byte replaces a previously-good output `[1, 2, 3]` with the
partial content `[9]`. -/
theorem c4_counterexample :
    runWriteOutput
      (fun p => if p = FsPath.mk true ["out.winmd"] then some [1, 2, 3] else none)
      (FsPath.mk true ["out.winmd"]) [9, 9] (.failsAfter 1)
      (FsPath.mk true ["out.winmd"]) = some [9] ∧
    (fun p => if p = FsPath.mk true ["out.winmd"] then some [1, 2, 3] else none)
      (FsPath.mk true ["out.winmd"]) = some [1, 2, 3] := by
  constructor <;> rfl

/-- C4 (amended): the run entry point writes the generated assembly bytes
directly to the output path with a single `std::fs::write` — there is no
temporary sibling and no rename — so a successful write replaces the
output with the new bytes, a write failing after `k` bytes leaves the
output holding the first `k` bytes of the NEW content (the pre-existing
output is not preserved), and paths other than the output are untouched. -/
theorem c4_run_write_not_atomic (fs : FileSystem) (path : FsPath) (bytes : List Nat)
    (k : Nat) :
    runWriteOutput fs path bytes .success path = some bytes ∧
    runWriteOutput fs path bytes (.failsAfter k) path = some (bytes.take k) ∧
    ∀ q, q ≠ path → ∀ outcome, runWriteOutput fs path bytes outcome q = fs q := by
  refine ⟨by simp [runWriteOutput, fsWrite], by simp [runWriteOutput, fsWrite], ?_⟩
  intro q hq outcome
  cases outcome <;> simp [runWriteOutput, fsWrite, hq]

/-- C4 witness: instantiation of `c4_run_write_not_atomic` at a concrete
filesystem and path. -/
theorem c4_run_write_not_atomic_witness :
    runWriteOutput (fun _ => none) (FsPath.mk true ["o"]) [5, 6] (.failsAfter 1)
      (FsPath.mk true ["o"]) = some ([5, 6].take 1) :=
  (c4_run_write_not_atomic (fun _ => none) (FsPath.mk true ["o"]) [5, 6] 1).2.1

theorem contains_eq_isSome (r : TypeRegistry) (name : String) :
    r.contains name = (r.findNs name).isSome := rfl

theorem register_findNs_of_some (r : TypeRegistry) (n ns name v : String)
    (h : r.findNs name = some v) : (r.register n ns).findNs name = some v := by
  unfold TypeRegistry.register
  by_cases hc : r.contains n
  · rw [if_pos hc]; exact h
  · rw [if_neg hc]
    unfold TypeRegistry.findNs at h ⊢
    rw [List.find?_append]
    obtain ⟨e, he, hmap⟩ := Option.map_eq_some.mp h
    rw [he]
    simpa [Option.or] using hmap

theorem register_findNs_of_ne (r : TypeRegistry) (n ns name : String) (h : n ≠ name) :
    (r.register n ns).findNs name = r.findNs name := by
  unfold TypeRegistry.register
  by_cases hc : r.contains n
  · rw [if_pos hc]
  · rw [if_neg hc]
    unfold TypeRegistry.findNs
    rw [List.find?_append]
    have hbe : (n == name) = false := by simpa using h
    have hone : (([(n, ns)] : List (String × String)).find? fun e => e.1 == name) = none := by
      simp [List.find?_cons, hbe]
    rw [hone]
    cases r.entries.find? (fun e => e.1 == name) <;> simp [Option.or]

theorem register_findNs_of_none_eq (r : TypeRegistry) (n ns : String)
    (h : r.findNs n = none) : (r.register n ns).findNs n = some ns := by
  have hc : r.contains n = false := by
    rw [contains_eq_isSome, h]; rfl
  unfold TypeRegistry.register
  rw [if_neg (by simp [hc])]
  unfold TypeRegistry.findNs
  rw [List.find?_append]
  have hl : (r.entries.find? fun e => e.1 == n) = none := by
    unfold TypeRegistry.findNs at h
    exact Option.map_eq_none.mp h
  rw [hl]
  simp [Option.or, List.find?]

theorem applyEvents_append (r : TypeRegistry) (l₁ l₂ : List (String × String)) :
    applyEvents r (l₁ ++ l₂) = applyEvents (applyEvents r l₁) l₂ := by
  induction l₁ generalizing r with
  | nil => rfl
  | cons e rest ih => simp [applyEvents, ih]

theorem applyEvents_findNs_of_some (events : List (String × String)) (r : TypeRegistry)
    (name v : String) (h : r.findNs name = some v) :
    (applyEvents r events).findNs name = some v := by
  induction events generalizing r with
  | nil => exact h
  | cons e rest ih =>
      exact ih (r.register e.1 e.2) (register_findNs_of_some r e.1 e.2 name v h)

theorem applyEvents_findNs_of_none (events : List (String × String)) (r : TypeRegistry)
    (name : String) (h : r.findNs name = none) :
    (applyEvents r events).findNs name =
      (events.find? fun e => e.1 == name).map (·.2) := by
  induction events generalizing r with
  | nil => exact h
  | cons e rest ih =>
      obtain ⟨en, ens⟩ := e
      by_cases he : en = name
      · subst he
        have h1 : (r.register en ens).findNs en = some ens :=
          register_findNs_of_none_eq r en ens h
        have h2 := applyEvents_findNs_of_some rest (r.register en ens) en ens h1
        simp only [applyEvents] at h2 ⊢
        rw [h2, List.find?_cons]
        simp
      · have h1 : (r.register en ens).findNs name = none := by
          rw [register_findNs_of_ne r en ens name he]; exact h
        have hbe : (en == name) = false := by simpa using he
        simp only [applyEvents]
        rw [ih (r.register en ens) h1, List.find?_cons]
        simp [hbe]

theorem foldl_register_eq_applyEvents {α : Type} (nameOf : α → String)
    (overrides : String → Option String) (ns : String) (l : List α) (r : TypeRegistry) :
    l.foldl (fun r a => r.register (nameOf a) ((overrides (nameOf a)).getD ns)) r =
      applyEvents r (l.map fun a => (nameOf a, (overrides (nameOf a)).getD ns)) := by
  induction l generalizing r with
  | nil => rfl
  | cons a rest ih => simp [applyEvents, ih]

theorem buildTypeRegistry_eq_applyEvents (partitions : List Partition)
    (overrides : String → Option String) :
    buildTypeRegistry partitions overrides =
      applyEvents TypeRegistry.empty (registryEvents overrides partitions) := by
  suffices hgen : ∀ (ps : List Partition) (r : TypeRegistry),
      ps.foldl
        (fun registry partition =>
          let r1 := partition.structs.foldl
            (fun r s => r.register s.name ((overrides s.name).getD partition.ns)) registry
          let r2 := partition.enums.foldl
            (fun r e => r.register e.name ((overrides e.name).getD partition.ns)) r1
          partition.typedefs.foldl
            (fun r td => r.register td.name ((overrides td.name).getD partition.ns)) r2)
        r = applyEvents r (registryEvents overrides ps) by
    exact hgen partitions TypeRegistry.empty
  intro ps
  induction ps with
  | nil => intro r; rfl
  | cons p rest ih =>
      intro r
      simp only [List.foldl_cons, registryEvents]
      rw [ih]
      rw [foldl_register_eq_applyEvents StructDef.name overrides p.ns,
        foldl_register_eq_applyEvents EnumDef.name overrides p.ns,
        foldl_register_eq_applyEvents TypedefDef.name overrides p.ns,
        applyEvents_append, applyEvents_append, applyEvents_append]

theorem find?_map_name_events {α : Type} (nameOf : α → String)
    (overrides : String → Option String) (ns name : String) (l : List α) :
    ((l.map fun a => (nameOf a, (overrides (nameOf a)).getD ns)).find?
        fun e => e.1 == name) =
      if l.any (fun a => nameOf a == name) then some (name, (overrides name).getD ns)
      else none := by
  induction l with
  | nil => simp
  | cons a rest ih =>
      simp only [List.map_cons, List.find?_cons, List.any_cons]
      by_cases heq : nameOf a = name
      · have hbe : (nameOf a == name) = true := by simpa using heq
        simp [hbe, heq]
      · have hbe : (nameOf a == name) = false := by simpa using heq
        simp [hbe, ih]

theorem find?_registryEvents (overrides : String → Option String)
    (partitions : List Partition) (name : String) :
    ((registryEvents overrides partitions).find? fun e => e.1 == name) =
      match partitions.find? (fun q => q.declares name) with
      | some p => some (name, (overrides name).getD p.ns)
      | none => none := by
  induction partitions with
  | nil => simp [registryEvents]
  | cons p rest ih =>
      simp only [registryEvents, List.find?_append]
      rw [find?_map_name_events StructDef.name overrides p.ns,
        find?_map_name_events EnumDef.name overrides p.ns,
        find?_map_name_events TypedefDef.name overrides p.ns, ih, List.find?_cons]
      by_cases hs : p.structs.any (fun s => s.name == name) = true
      · have hdecl : p.declares name = true := by simp [Partition.declares, hs]
        simp [hs, hdecl, Option.or]
      · by_cases he : p.enums.any (fun e => e.name == name) = true
        · have hdecl : p.declares name = true := by simp [Partition.declares, he]
          simp [hs, he, hdecl, Option.or]
        · by_cases ht : p.typedefs.any (fun td => td.name == name) = true
          · have hdecl : p.declares name = true := by simp [Partition.declares, ht]
            simp [hs, he, ht, hdecl, Option.or]
          · have hdecl : p.declares name = false := by
              simp [Partition.declares, hs, he, ht]
            simp [hs, he, ht, hdecl, Option.or]

theorem buildTypeRegistry_findNs (partitions : List Partition)
    (overrides : String → Option String) (name : String) :
    (buildTypeRegistry partitions overrides).findNs name =
      match partitions.find? (fun q => q.declares name) with
      | some p => some ((overrides name).getD p.ns)
      | none => none := by
  rw [buildTypeRegistry_eq_applyEvents,
    applyEvents_findNs_of_none (registryEvents overrides partitions) TypeRegistry.empty
      name rfl,
    find?_registryEvents]
  cases partitions.find? (fun q => q.declares name) <;> simp

/-- C6: after `build_type_registry` runs over the extracted partitions,
every name declared as a struct, enum or typedef by some partition is
registered; if `namespace_overrides` maps that name to `NS`, the registry
maps the name to `NS` regardless of which partition declared it and of
declaration order; names without an override map to the namespace of the
first partition, in declaration order, that declares them (first writer
wins). -/
theorem c6_build_type_registry (partitions : List Partition)
    (overrides : String → Option String) :
    (∀ name, (∃ p ∈ partitions, p.declares name = true) →
      (buildTypeRegistry partitions overrides).contains name = true) ∧
    (∀ name NS, overrides name = some NS →
      (∃ p ∈ partitions, p.declares name = true) →
      (buildTypeRegistry partitions overrides).findNs name = some NS) ∧
    (∀ name p, overrides name = none →
      partitions.find? (fun q => q.declares name) = some p →
      (buildTypeRegistry partitions overrides).findNs name = some p.ns) := by
  refine ⟨?_, ?_, ?_⟩
  · intro name hp
    have hsome : (partitions.find? fun q => q.declares name).isSome :=
      List.find?_isSome.mpr hp
    obtain ⟨q, hq⟩ := Option.isSome_iff_exists.mp hsome
    rw [contains_eq_isSome, buildTypeRegistry_findNs, hq]
    rfl
  · intro name NS hov hp
    have hsome : (partitions.find? fun q => q.declares name).isSome :=
      List.find?_isSome.mpr hp
    obtain ⟨q, hq⟩ := Option.isSome_iff_exists.mp hsome
    rw [buildTypeRegistry_findNs, hq, hov]
    rfl
  · intro name p hov hfind
    rw [buildTypeRegistry_findNs, hfind, hov]
    rfl

/-- C6 witness: instantiation of `c6_build_type_registry` — with two
partitions both declaring the typedef `uid_t` and no override, the
registry maps `uid_t` to the first partition's namespace. -/
theorem c6_build_type_registry_witness :
    (buildTypeRegistry
      [Partition.mk "A" "la" [] [] [] [⟨"uid_t", .i32⟩] [],
       Partition.mk "B" "lb" [] [] [] [⟨"uid_t", .i32⟩] []]
      (fun _ => none)).findNs "uid_t" = some "A" :=
  (c6_build_type_registry
    [Partition.mk "A" "la" [] [] [] [⟨"uid_t", .i32⟩] [],
     Partition.mk "B" "lb" [] [] [] [⟨"uid_t", .i32⟩] []]
    (fun _ => none)).2.2 "uid_t" (Partition.mk "A" "la" [] [] [] [⟨"uid_t", .i32⟩] [])
    rfl rfl

theorem seed_findNs_of_contains (types : List (String × String)) (registry : TypeRegistry)
    (f name : String) (h : registry.contains name = true) :
    (seedRegistryFromWinmd registry types f).findNs name = registry.findNs name := by
  induction types generalizing registry with
  | nil => rfl
  | cons t ts ih =>
      simp only [seedRegistryFromWinmd, List.foldl_cons]
      by_cases h1 : t.1 = "" ∨ t.2 = "<Module>" ∨ t.2 = "Apis"
      · rw [if_pos h1]; exact ih registry h
      · rw [if_neg h1]
        by_cases h2 : ¬ f.isPrefixOf t.1 = true
        · rw [if_pos h2]; exact ih registry h
        · rw [if_neg h2]
          by_cases h3 : registry.contains t.2 = true
          · rw [if_pos h3]; exact ih registry h
          · rw [if_neg h3]
            have hne : t.2 ≠ name := by
              intro he; rw [he] at h3; exact h3 h
            have hfind := register_findNs_of_ne registry t.2 t.1 name hne
            have hcont : (registry.register t.2 t.1).contains name = true := by
              rw [contains_eq_isSome, hfind, ← contains_eq_isSome]; exact h
            exact (ih (registry.register t.2 t.1) hcont).trans hfind

theorem seed_findNs_new (types : List (String × String)) (registry : TypeRegistry)
    (f name ns : String) (h : registry.contains name = false)
    (hfind : (seedRegistryFromWinmd registry types f).findNs name = some ns) :
    (ns, name) ∈ types ∧ ns ≠ "" ∧ name ≠ "<Module>" ∧ name ≠ "Apis" ∧
      f.isPrefixOf ns = true := by
  induction types generalizing registry with
  | nil =>
      exfalso
      have hnone : registry.findNs name = none := by
        rw [contains_eq_isSome] at h
        exact Option.not_isSome_iff_eq_none.mp (by simp [h])
      rw [show seedRegistryFromWinmd registry [] f = registry from rfl, hnone] at hfind
      exact Option.noConfusion hfind
  | cons t ts ih =>
      simp only [seedRegistryFromWinmd, List.foldl_cons] at hfind
      by_cases h1 : t.1 = "" ∨ t.2 = "<Module>" ∨ t.2 = "Apis"
      · rw [if_pos h1] at hfind
        have hres := ih registry h hfind
        exact ⟨List.mem_cons_of_mem t hres.1, hres.2⟩
      · rw [if_neg h1] at hfind
        by_cases h2 : ¬ f.isPrefixOf t.1 = true
        · rw [if_pos h2] at hfind
          have hres := ih registry h hfind
          exact ⟨List.mem_cons_of_mem t hres.1, hres.2⟩
        · rw [if_neg h2] at hfind
          by_cases h3 : registry.contains t.2 = true
          · rw [if_pos h3] at hfind
            have hres := ih registry h hfind
            exact ⟨List.mem_cons_of_mem t hres.1, hres.2⟩
          · rw [if_neg h3] at hfind
            by_cases he : t.2 = name
            · subst he
              have hnone : registry.findNs t.2 = none := by
                rw [contains_eq_isSome] at h3
                exact Option.not_isSome_iff_eq_none.mp (by simp [h3])
              have hreg : (registry.register t.2 t.1).findNs t.2 = some t.1 :=
                register_findNs_of_none_eq registry t.2 t.1 hnone
              have hcont : (registry.register t.2 t.1).contains t.2 = true := by
                rw [contains_eq_isSome, hreg]; rfl
              have hpres :=
                seed_findNs_of_contains ts (registry.register t.2 t.1) f t.2 hcont
              have hfind2 : (seedRegistryFromWinmd (registry.register t.2 t.1) ts
                  f).findNs t.2 = some ns := hfind
              rw [hpres, hreg] at hfind2
              obtain hns : t.1 = ns := Option.some.inj hfind2
              push_neg at h1
              refine ⟨?_, ?_, h1.2.1, h1.2.2, ?_⟩
              · rw [← hns]
                exact List.mem_cons_self t ts
              · rw [← hns]; exact h1.1
              · rw [← hns]
                by_contra hx
                exact h2 (by simpa using hx)
            · have hne := register_findNs_of_ne registry t.2 t.1 name he
              have hcont : (registry.register t.2 t.1).contains name = false := by
                rw [contains_eq_isSome, hne, ← contains_eq_isSome]; exact h
              have hres := ih (registry.register t.2 t.1) hcont hfind
              exact ⟨List.mem_cons_of_mem t hres.1, hres.2⟩

theorem generateRegistry_preserves_local (partitions : List Partition)
    (overrides : String → Option String)
    (imports : List (List (String × String) × String)) (name : String)
    (h : (buildTypeRegistry partitions overrides).contains name = true) :
    (generateRegistry partitions overrides imports).findNs name =
      (buildTypeRegistry partitions overrides).findNs name := by
  suffices hgen : ∀ r : TypeRegistry, r.contains name = true →
      (imports.foldl (fun r ti => seedRegistryFromWinmd r ti.1 ti.2) r).findNs name =
        r.findNs name by
    exact hgen (buildTypeRegistry partitions overrides) h
  intro r
  induction imports generalizing r with
  | nil => intro _; rfl
  | cons ti tis ih =>
      intro hr
      simp only [List.foldl_cons]
      have h1 := seed_findNs_of_contains ti.1 r ti.2 name hr
      have hc : (seedRegistryFromWinmd r ti.1 ti.2).contains name = true := by
        rw [contains_eq_isSome, h1, ← contains_eq_isSome]; exact hr
      rw [ih (seedRegistryFromWinmd r ti.1 ti.2) hc, h1]

/-- C7: seeding the type registry from an external `.winmd` happens after
all local partitions have registered and registers only types whose
namespace starts with the configured prefix, never a type named `<Module>`
or `Apis` or one with an empty namespace, and never overwrites a name
already present in the registry (locally extracted types always win over
imported ones). -/
theorem c7_seed_registry_from_winmd (registry : TypeRegistry)
    (types : List (String × String)) (nsFilter : String)
    (partitions : List Partition) (overrides : String → Option String)
    (imports : List (List (String × String) × String)) :
    (∀ name, registry.contains name = true →
      (seedRegistryFromWinmd registry types nsFilter).findNs name =
        registry.findNs name) ∧
    (∀ name ns, registry.contains name = false →
      (seedRegistryFromWinmd registry types nsFilter).findNs name = some ns →
      (ns, name) ∈ types ∧ ns ≠ "" ∧ name ≠ "<Module>" ∧ name ≠ "Apis" ∧
        nsFilter.isPrefixOf ns = true) ∧
    (∀ name, (buildTypeRegistry partitions overrides).contains name = true →
      (generateRegistry partitions overrides imports).findNs name =
        (buildTypeRegistry partitions overrides).findNs name) :=
  ⟨fun name h => seed_findNs_of_contains types registry nsFilter name h,
   fun name ns h hfind => seed_findNs_new types registry nsFilter name ns h hfind,
   fun name h => generateRegistry_preserves_local partitions overrides imports name h⟩

/-- C7 witness: instantiation of `c7_seed_registry_from_winmd` — a locally
registered name keeps its namespace across seeding. -/
theorem c7_seed_registry_from_winmd_witness :
    (seedRegistryFromWinmd ⟨[("EVP_MD", "Local.Ns")]⟩
      [("openssl.types", "EVP_MD"), ("openssl.types", "EVP_CIPHER")]
      "openssl").findNs "EVP_MD" =
      TypeRegistry.findNs ⟨[("EVP_MD", "Local.Ns")]⟩ "EVP_MD" :=
  (c7_seed_registry_from_winmd ⟨[("EVP_MD", "Local.Ns")]⟩
    [("openssl.types", "EVP_MD"), ("openssl.types", "EVP_CIPHER")]
    "openssl" [] (fun _ => none) []).1 "EVP_MD" rfl

/-- C2: after the typedef-deduplication pass, every typedef retained in a
partition has a registry-canonical namespace equal to that partition's
namespace, every typedef whose canonical namespace differs from its own
partition's namespace is dropped from that partition, and the partitions'
structs, enums, functions and constants are unchanged by the pass. -/
theorem c2_typedef_dedup (registry : TypeRegistry) (partitions : List Partition) :
    List.Forall₂ (fun p q =>
      q.ns = p.ns ∧ q.library = p.library ∧ q.structs = p.structs ∧
      q.enums = p.enums ∧ q.functions = p.functions ∧ q.constants = p.constants ∧
      (∀ td ∈ q.typedefs, registry.namespaceFor td.name q.ns = q.ns) ∧
      (∀ td ∈ p.typedefs, registry.namespaceFor td.name p.ns = p.ns →
        td ∈ q.typedefs) ∧
      (∀ td ∈ p.typedefs, registry.namespaceFor td.name p.ns ≠ p.ns →
        ¬ td ∈ q.typedefs))
      partitions (dedupTypedefs registry partitions) := by
  unfold dedupTypedefs
  induction partitions with
  | nil => exact List.Forall₂.nil
  | cons p rest ih =>
      simp only [List.map_cons]
      refine List.Forall₂.cons ⟨rfl, rfl, rfl, rfl, rfl, rfl, ?_, ?_, ?_⟩ ih
      · intro td htd
        have hmem := List.mem_filter.mp htd
        simpa using hmem.2
      · intro td htd hns
        exact List.mem_filter.mpr ⟨htd, by simpa using hns⟩
      · intro td htd hns hmem
        exact hns (by simpa using (List.mem_filter.mp hmem).2)

/-- C2 witness: instantiation of `c2_typedef_dedup` — with `uid_t`
canonicalized to namespace `A`, partition `B` drops its copy while
partition `A` keeps it. -/
theorem c2_typedef_dedup_witness :
    List.Forall₂ (fun p q =>
      q.ns = p.ns ∧ q.library = p.library ∧ q.structs = p.structs ∧
      q.enums = p.enums ∧ q.functions = p.functions ∧ q.constants = p.constants ∧
      (∀ td ∈ q.typedefs,
        TypeRegistry.namespaceFor ⟨[("uid_t", "A")]⟩ td.name q.ns = q.ns) ∧
      (∀ td ∈ p.typedefs,
        TypeRegistry.namespaceFor ⟨[("uid_t", "A")]⟩ td.name p.ns = p.ns →
        td ∈ q.typedefs) ∧
      (∀ td ∈ p.typedefs,
        TypeRegistry.namespaceFor ⟨[("uid_t", "A")]⟩ td.name p.ns ≠ p.ns →
        ¬ td ∈ q.typedefs))
      [Partition.mk "A" "la" [] [] [] [⟨"uid_t", .i32⟩] [],
       Partition.mk "B" "lb" [] [] [] [⟨"uid_t", .i32⟩] []]
      (dedupTypedefs ⟨[("uid_t", "A")]⟩
        [Partition.mk "A" "la" [] [] [] [⟨"uid_t", .i32⟩] [],
         Partition.mk "B" "lb" [] [] [] [⟨"uid_t", .i32⟩] []]) :=
  c2_typedef_dedup ⟨[("uid_t", "A")]⟩
    [Partition.mk "A" "la" [] [] [] [⟨"uid_t", .i32⟩] [],
     Partition.mk "B" "lb" [] [] [] [⟨"uid_t", .i32⟩] []]

theorem extractLoop_mem {α β : Type} (extract : α → Except String β)
    (inScope : Located α → Bool) (l : List (Located α)) (b : β) :
    b ∈ extractLoop extract inScope l ↔
      ∃ d ∈ l, inScope d = true ∧ extract d.decl = .ok b := by
  induction l with
  | nil => simp [extractLoop]
  | cons d rest ih =>
      by_cases hd : inScope d = true
      · cases hex : extract d.decl with
        | ok b0 =>
            have hstep : extractLoop extract inScope (d :: rest) =
                b0 :: extractLoop extract inScope rest := by
              simp [extractLoop, hd, hex]
            rw [hstep]
            simp only [List.mem_cons]
            constructor
            · rintro (rfl | hmem)
              · exact ⟨d, Or.inl rfl, hd, hex⟩
              · obtain ⟨d1, hd1, hs1, he1⟩ := ih.mp hmem
                exact ⟨d1, Or.inr hd1, hs1, he1⟩
            · rintro ⟨d1, hd1, hs1, he1⟩
              rcases hd1 with rfl | hd1t
              · rw [hex] at he1
                exact Or.inl (Except.ok.inj he1).symm
              · exact Or.inr (ih.mpr ⟨d1, hd1t, hs1, he1⟩)
        | error m =>
            have hstep : extractLoop extract inScope (d :: rest) =
                extractLoop extract inScope rest := by
              simp [extractLoop, hd, hex]
            rw [hstep, ih]
            constructor
            · rintro ⟨d1, hd1, hs1, he1⟩
              exact ⟨d1, List.mem_cons_of_mem d hd1, hs1, he1⟩
            · rintro ⟨d1, hd1, hs1, he1⟩
              rcases List.mem_cons.mp hd1 with rfl | hd1t
              · rw [hex] at he1
                exact absurd he1 (by simp)
              · exact ⟨d1, hd1t, hs1, he1⟩
      · have hstep : extractLoop extract inScope (d :: rest) =
            extractLoop extract inScope rest := by
          simp [extractLoop, hd]
        rw [hstep, ih]
        constructor
        · rintro ⟨d1, hd1, hs1, he1⟩
          exact ⟨d1, List.mem_cons_of_mem d hd1, hs1, he1⟩
        · rintro ⟨d1, hd1, hs1, he1⟩
          rcases List.mem_cons.mp hd1 with rfl | hd1t
          · exact absurd hs1 hd
          · exact ⟨d1, hd1t, hs1, he1⟩

theorem extractConstantsLoop_mem (inScope : Located DefineE → Bool)
    (l : List (Located DefineE)) (c : ConstantDef) :
    c ∈ extractConstantsLoop inScope l ↔
      ∃ d ∈ l, inScope d = true ∧
        c = ⟨d.decl.name, extractConstantValue d.decl.value⟩ := by
  induction l with
  | nil => simp [extractConstantsLoop]
  | cons d rest ih =>
      by_cases hd : inScope d = true
      · have hstep : extractConstantsLoop inScope (d :: rest) =
            ⟨d.decl.name, extractConstantValue d.decl.value⟩ ::
              extractConstantsLoop inScope rest := by
          simp [extractConstantsLoop, hd]
        rw [hstep]
        simp only [List.mem_cons]
        constructor
        · rintro (rfl | hmem)
          · exact ⟨d, Or.inl rfl, hd, rfl⟩
          · obtain ⟨d1, hd1, hs1, he1⟩ := ih.mp hmem
            exact ⟨d1, Or.inr hd1, hs1, he1⟩
        · rintro ⟨d1, hd1, hs1, he1⟩
          rcases hd1 with rfl | hd1t
          · exact Or.inl he1
          · exact Or.inr (ih.mpr ⟨d1, hd1t, hs1, he1⟩)
      · have hstep : extractConstantsLoop inScope (d :: rest) =
            extractConstantsLoop inScope rest := by
          simp [extractConstantsLoop, hd]
        rw [hstep, ih]
        constructor
        · rintro ⟨d1, hd1, hs1, he1⟩
          exact ⟨d1, List.mem_cons_of_mem d hd1, hs1, he1⟩
        · rintro ⟨d1, hd1, hs1, he1⟩
          rcases List.mem_cons.mp hd1 with rfl | hd1t
          · exact absurd hs1 hd
          · exact ⟨d1, hd1t, hs1, he1⟩

theorem endsWith_iff (file tf : FsPath) :
    file.endsWith tf = true ↔
      (if tf.absolute then file = tf else tf.components <:+ file.components) := by
  unfold FsPath.endsWith
  by_cases h : tf.absolute = true <;> simp [h]

theorem shouldEmitByLocation_iff (loc : Option (Option FsPath))
    (traverseFiles : List FsPath) (baseDir : FsPath) :
    shouldEmitByLocation loc traverseFiles baseDir = true ↔
      ∃ fp, loc = some (some fp) ∧ ∃ tf ∈ traverseFiles,
        (fp = (if tf.absolute then tf else baseDir.join tf) ∨
          (if tf.absolute then fp = tf
           else tf.components <:+ fp.components)) := by
  cases loc with
  | none => simp [shouldEmitByLocation]
  | some inner =>
      cases inner with
      | none => simp [shouldEmitByLocation]
      | some fp =>
          simp only [shouldEmitByLocation, List.any_eq_true, Bool.or_eq_true,
            decide_eq_true_eq]
          constructor
          · rintro ⟨tf, htf, heq | hend⟩
            · exact ⟨fp, rfl, tf, htf, Or.inl heq⟩
            · exact ⟨fp, rfl, tf, htf, Or.inr ((endsWith_iff fp tf).mp hend)⟩
          · rintro ⟨fp0, heq0, tf, htf, hmatch⟩
            have hfp : fp = fp0 :=
              Option.some.inj (Option.some.inj heq0)
            subst hfp
            refine ⟨tf, htf, ?_⟩
            rcases hmatch with h1 | h2
            · exact Or.inl h1
            · exact Or.inr ((endsWith_iff fp tf).mpr h2)

/-- C1 counterexample: a struct declaration whose primary source location
matches the partition's traverse list (here the default `headers` list) is
nonetheless NOT included in the resulting partition, because its field
type fails to map — so inclusion is not equivalent to the location
match. -/
theorem c1_scope_filter_counterexample :
    shouldEmitByLocation (some (some ⟨true, ["h"]⟩))
      (PartitionConfigE.traverseFiles ⟨"NS", "lib", [⟨true, ["h"]⟩], []⟩)
      ⟨true, []⟩ = true ∧
    (extractPartition ⟨"NS", "lib", [⟨true, ["h"]⟩], []⟩ ⟨true, []⟩
      ⟨[⟨some (some ⟨true, ["h"]⟩),
         ⟨"S", some ⟨some 4, some 4⟩,
          [.field (some "f") (some (.unsupported "X")) false none none]⟩⟩],
        [], [], [], []⟩).structs = [] := ⟨rfl, rfl⟩

/-- C1 (amended): a declaration is included in the resulting partition iff
its primary source location matches some entry of the traverse list (the
headers list when traverse is empty) AND its per-declaration extraction
succeeds; a match is path equality with the entry (resolved against the
base directory when the entry is relative) or path-suffix equality with
the entry as written.  `#define` constants have no fallible extraction
step, so for them inclusion is equivalent to the location match alone. -/
theorem c1_partition_scope_filter (cfg : PartitionConfigE) (base : FsPath)
    (tu : TranslationUnitDecls) :
    (∀ s : StructDef, s ∈ (extractPartition cfg base tu).structs ↔
      ∃ d ∈ tu.structs, shouldEmitByLocation d.loc cfg.traverseFiles base = true ∧
        extractStruct d.decl = .ok s) ∧
    (∀ e : EnumDef, e ∈ (extractPartition cfg base tu).enums ↔
      ∃ d ∈ tu.enums, shouldEmitByLocation d.loc cfg.traverseFiles base = true ∧
        extractEnum d.decl = .ok e) ∧
    (∀ f : FunctionDef, f ∈ (extractPartition cfg base tu).functions ↔
      ∃ d ∈ tu.functions, shouldEmitByLocation d.loc cfg.traverseFiles base = true ∧
        extractFunction d.decl = .ok f) ∧
    (∀ td : TypedefDef, td ∈ (extractPartition cfg base tu).typedefs ↔
      ∃ d ∈ tu.typedefs, shouldEmitByLocation d.loc cfg.traverseFiles base = true ∧
        extractTypedef d.decl = .ok td) ∧
    (∀ c : ConstantDef, c ∈ (extractPartition cfg base tu).constants ↔
      ∃ d ∈ tu.defines, shouldEmitByLocation d.loc cfg.traverseFiles base = true ∧
        c = ⟨d.decl.name, extractConstantValue d.decl.value⟩) ∧
    (∀ loc, shouldEmitByLocation loc cfg.traverseFiles base = true ↔
      ∃ fp, loc = some (some fp) ∧ ∃ tf ∈ cfg.traverseFiles,
        (fp = (if tf.absolute then tf else base.join tf) ∨
          (if tf.absolute then fp = tf
           else tf.components <:+ fp.components))) ∧
    (cfg.traverse = [] → cfg.traverseFiles = cfg.headers) ∧
    (cfg.traverse ≠ [] → cfg.traverseFiles = cfg.traverse) := by
  refine ⟨?_, ?_, ?_, ?_, ?_, ?_, ?_, ?_⟩
  · exact fun s => extractLoop_mem extractStruct
      (fun d => shouldEmit d.loc cfg.traverseFiles base) tu.structs s
  · exact fun e => extractLoop_mem extractEnum
      (fun d => shouldEmit d.loc cfg.traverseFiles base) tu.enums e
  · exact fun f => extractLoop_mem extractFunction
      (fun d => shouldEmit d.loc cfg.traverseFiles base) tu.functions f
  · exact fun td => extractLoop_mem extractTypedef
      (fun d => shouldEmit d.loc cfg.traverseFiles base) tu.typedefs td
  · exact fun c => extractConstantsLoop_mem
      (fun d => shouldEmitByLocation d.loc cfg.traverseFiles base) tu.defines c
  · exact fun loc => shouldEmitByLocation_iff loc cfg.traverseFiles base
  · intro h
    unfold PartitionConfigE.traverseFiles
    simp [h]
  · intro h
    unfold PartitionConfigE.traverseFiles
    rw [if_neg]
    simpa using h

/-- C1 witness: instantiation of `c1_partition_scope_filter` — an
in-scope `#define` at the listed header is included. -/
theorem c1_partition_scope_filter_witness :
    ConstantDef.mk "MAX" (.signed 256) ∈
      (extractPartition ⟨"NS", "lib", [⟨true, ["h"]⟩], []⟩ ⟨true, []⟩
        ⟨[], [], [], [],
          [⟨some (some ⟨true, ["h"]⟩), ⟨"MAX", .integer false 256⟩⟩]⟩).constants :=
  ((c1_partition_scope_filter ⟨"NS", "lib", [⟨true, ["h"]⟩], []⟩ ⟨true, []⟩
    ⟨[], [], [], [],
      [⟨some (some ⟨true, ["h"]⟩), ⟨"MAX", .integer false 256⟩⟩]⟩).2.2.2.2.1
    (ConstantDef.mk "MAX" (.signed 256))).mpr
    ⟨⟨some (some ⟨true, ["h"]⟩), ⟨"MAX", .integer false 256⟩⟩,
      List.mem_cons_self _ _, rfl, rfl⟩

end Bindscrape
